import Mathlib

/-!
Verification of the OSMnx street-network tutorial notebook
(`L8_osmnx-basics.ipynb`).

The notebook is glue code around two external libraries (osmnx and
networkx).  We shallowly embed the notebook's own Python statements
(filters, comprehensions, `max`, `deepcopy` + dict mutation, the cell
sequence) directly from the source, and model the external library
calls the notebook relies on (`ox.get_digraph`, `nx.set_node_attributes`,
`nx.betweenness_centrality`, the export functions) from their documented
behaviour, since their implementations are not part of this repository.

Numbers (edge lengths, centrality scores) are modelled as rationals.
-/

namespace OsmnxBasics

/-- Python dict lookup: the value bound to key `k`, if any.  (Python dicts
have unique keys; on an association list this returns the first binding.) -/
def dictGet {α β : Type} [DecidableEq α] : List (α × β) → α → Option β
  | [], _ => none
  | p :: rest, k => if p.1 = k then some p.2 else dictGet rest k

/-- Python dict assignment `d[k] = v`: replace the binding of `k` in place,
or append a fresh binding at the end (Python insertion order). -/
def dictSet {α β : Type} [DecidableEq α] : List (α × β) → α → β → List (α × β)
  | [], k, v => [(k, v)]
  | p :: rest, k, v => if p.1 = k then (k, v) :: rest else p :: dictSet rest k v

/-- Python dict deletion `del d[k]`: drop the binding of `k`. -/
def dictDel {α β : Type} [DecidableEq α] (d : List (α × β)) (k : α) : List (α × β) :=
  d.filter (fun p => decide (p.1 ≠ k))

/-! ## The street-network graph

A networkx `MultiDiGraph` as produced by osmnx: nodes carry an attribute
dict, edges are directed and may be parallel; each edge carries its
`length`.  Only the pieces the notebook touches are modelled. -/

/-- A directed multigraph: nodes with attribute dicts, edges `(u, v, length)`
where parallel edges are repeated `(u, v)` entries. -/
structure MultiDiGraph where
  nodes : List (Nat × List (String × ℚ))
  edges : List (Nat × Nat × ℚ)
deriving DecidableEq

/-- Node identifiers of the graph, in iteration order (`G.nodes`). -/
def nodeIds (G : MultiDiGraph) : List Nat := G.nodes.map Prod.fst

/-- Attribute `a` of node `n`, as read off `G.nodes[n][a]`. -/
def getNodeAttr (G : MultiDiGraph) (n : Nat) (a : String) : Option ℚ :=
  (G.nodes.find? (fun p => decide (p.1 = n))).bind (fun p => dictGet p.2 a)

/-- A simple directed graph (no parallel edges). -/
structure DiGraph where
  nodes : List Nat
  edges : List (Nat × Nat × ℚ)
deriving DecidableEq

/-- Minimum of a list of rationals (`0` on the empty list, which the
callers below never produce). -/
def minOf : List ℚ → ℚ
  | [] => 0
  | x :: xs => xs.foldl min x

/-- Modelled from the spec: `ox.get_digraph` ("convert the multigraph to a
simple directed graph"), whose implementation lives in osmnx, not in this
repository.  It collapses each set of parallel edges into the single edge
of minimum `length`. -/
def get_digraph (G : MultiDiGraph) : DiGraph where
  nodes := nodeIds G
  edges :=
    ((G.edges.map (fun e => (e.1, e.2.1))).dedup).map (fun uv =>
      (uv.1, uv.2,
        minOf ((G.edges.filter
          (fun e => decide (e.1 = uv.1) && decide (e.2.1 = uv.2))).map
            (fun e => e.2.2))))

/-- Modelled from the spec: `nx.set_node_attributes(G, values, name)`
("attach the result back onto the graph as a node attribute"), whose
implementation lives in networkx.  Each node that appears in `values`
gets attribute `name` set to its value; other nodes are untouched. -/
def set_node_attributes (G : MultiDiGraph) (values : List (Nat × ℚ))
    (name : String) : MultiDiGraph :=
  { G with
    nodes := G.nodes.map (fun na =>
      match dictGet values na.1 with
      | some v => (na.1, dictSet na.2 name v)
      | none => na) }

/-! ## Helper lemmas -/

/-- The per-node update performed by `set_node_attributes`. -/
def setAttrUpdate (vals : List (Nat × ℚ)) (nm : String)
    (na : Nat × List (String × ℚ)) : Nat × List (String × ℚ) :=
  match dictGet vals na.1 with
  | some v => (na.1, dictSet na.2 nm v)
  | none => na

/-! ## Betweenness centrality

`nx.betweenness_centrality(D, weight="length")` as invoked by the
notebook: weighted shortest paths, normalized scores, endpoints not
counted.  The implementation lives in networkx, so the function is
modelled from its documented behaviour, executably: on a finite graph
every simple path can be enumerated, shortest paths are the
minimum-weight ones, and each ordered node pair `(s, t)` contributes the
fraction of its shortest paths passing through the node. -/

/-- The `length` attribute of the edge from `u` to `v`, if present. -/
def edgeWeight (D : DiGraph) (u v : Nat) : Option ℚ :=
  (D.edges.find? (fun e => decide (e.1 = u) && decide (e.2.1 = v))).map (fun e => e.2.2)

/-- Whether the graph has an edge from `u` to `v`. -/
def hasEdgeB (D : DiGraph) (u v : Nat) : Bool := (edgeWeight D u v).isSome

/-- Total `length` of a path (sum of its edges' lengths). -/
def pathWeight (D : DiGraph) : List Nat → ℚ
  | [] => 0
  | [_] => 0
  | u :: v :: rest => (edgeWeight D u v).getD 0 + pathWeight D (v :: rest)

/-- Every two consecutive nodes of the list are joined by an edge. -/
def isPathB (D : DiGraph) : List Nat → Bool
  | [] => true
  | [_] => true
  | u :: v :: rest => hasEdgeB D u v && isPathB D (v :: rest)

/-- `p` is a simple (duplicate-free) directed path from `s` to `t`. -/
def IsSimplePath (D : DiGraph) (s t : Nat) (p : List Nat) : Prop :=
  p.head? = some s ∧ p.getLast? = some t ∧ p.Nodup ∧ isPathB D p = true

instance (D : DiGraph) (s t : Nat) (p : List Nat) :
    Decidable (IsSimplePath D s t p) := by
  unfold IsSimplePath; infer_instance

/-- `p` is a shortest (minimum-weight) simple path from `s` to `t`. -/
def IsShortestPath (D : DiGraph) (s t : Nat) (p : List Nat) : Prop :=
  IsSimplePath D s t p ∧
    ∀ q, IsSimplePath D s t q → pathWeight D p ≤ pathWeight D q

/-- All duplicate-free sequences over the graph's nodes: the candidate
pool from which simple paths are selected. -/
def candidateSeqs (D : DiGraph) : List (List Nat) :=
  (D.nodes.sublists.flatMap List.permutations').dedup

/-- All simple paths from `s` to `t`. -/
def simplePaths (D : DiGraph) (s t : Nat) : List (List Nat) :=
  (candidateSeqs D).filter (fun p => decide (IsSimplePath D s t p))

/-- All shortest paths from `s` to `t` (weighted by `length`). -/
def shortestPaths (D : DiGraph) (s t : Nat) : List (List Nat) :=
  (simplePaths D s t).filter (fun p =>
    (simplePaths D s t).all (fun q => decide (pathWeight D p ≤ pathWeight D q)))

/-- Number of shortest paths from `s` to `t`. -/
def numShortest (D : DiGraph) (s t : Nat) : Nat := (shortestPaths D s t).length

/-- Number of shortest paths from `s` to `t` passing through `v`. -/
def numShortestThrough (D : DiGraph) (v s t : Nat) : Nat :=
  ((shortestPaths D s t).filter (fun p => decide (v ∈ p))).length

/-- The pair dependency of `v` for the ordered pair `(s, t)`: the fraction
of shortest `s`–`t` paths that pass through `v`.  (In ℚ, `x / 0 = 0`, which
matches networkx contributing nothing for unreachable pairs.) -/
def pairRatio (D : DiGraph) (v s t : Nat) : ℚ :=
  (numShortestThrough D v s t : ℚ) / (numShortest D s t : ℚ)

/-- The ordered node pairs `(s, t)` with `s ≠ t`, both distinct from `v`,
summed over by the centrality of `v`. -/
def bcPairs (D : DiGraph) (v : Nat) : List (Nat × Nat) :=
  (D.nodes.filter (fun s => decide (s ≠ v))).flatMap (fun s =>
    (D.nodes.filter (fun t => decide (t ≠ v) && decide (t ≠ s))).map (fun t => (s, t)))

/-- The normalization factor networkx applies on a directed graph with
`n` nodes: `1/((n-1)(n-2))` when `n > 2`, otherwise no rescaling. -/
def bcScale (n : Nat) : ℚ := if 2 < n then (((n : ℚ) - 1) * ((n : ℚ) - 2))⁻¹ else 1

/-- Modelled from the spec: `nx.betweenness_centrality(D, weight="length")`
("a per-node score measuring the fraction of shortest paths between all
node pairs that pass through that node"), whose implementation lives in
networkx.  Returns the node-to-score dictionary. -/
def betweenness_centrality (D : DiGraph) : List (Nat × ℚ) :=
  D.nodes.map (fun v =>
    (v, bcScale D.nodes.length *
      ((bcPairs D v).map (fun st => pairRatio D v st.1 st.2)).sum))

/-- The ordered pairs summed over by the centrality of `v`, as a finset:
both components are nodes distinct from `v`, and from each other. -/
def bcPairsFinset (D : DiGraph) (v : Nat) : Finset (Nat × Nat) :=
  ((D.nodes.toFinset.erase v) ×ˢ (D.nodes.toFinset.erase v)).filter
    (fun st => st.1 ≠ st.2)

/-! ## Boundary acquisition (cells 11–16)

`tokyo_pre_boundary = gpd.read_file(BOUNDARY_URL)` loads a table of rows;
`chiyoda = tokyo_pre_boundary[tokyo_pre_boundary.N03_004 == "千代田区"]`
keeps the rows whose `N03_004` column equals the district name. -/

/-- One row of the loaded boundary table: the `N03_004` district-name
column the notebook filters on, plus the remaining columns (other
attributes and the geometry), abstracted as `α`. -/
structure BoundaryRow (α : Type) where
  N03_004 : String
  rest : α
deriving DecidableEq

/-- The URL the boundary file is read from (cell 11). -/
def BOUNDARY_URL : String :=
  "https://raw.githubusercontent.com/smartnews-smri/japan-topography/main/data/municipality/geojson/s0010/N03-21_13_210101.json"

/-- The pandas boolean-mask selection
`df[df.N03_004 == name]`: keep exactly the rows whose `N03_004` equals
`name`, in order, unchanged. -/
def filterDistrict {α : Type} (df : List (BoundaryRow α)) (name : String) :
    List (BoundaryRow α) :=
  df.filter (fun r => decide (r.N03_004 = name))

/-- Cell 13: `chiyoda = tokyo_pre_boundary[tokyo_pre_boundary.N03_004 == "千代田区"]`. -/
def chiyodaOf {α : Type} (df : List (BoundaryRow α)) : List (BoundaryRow α) :=
  filterDistrict df "千代田区"

/-! ## Export (cells 41, 44, 46)

Serialization formats and byte layout are owned by the external export
functions; the model records which graph is written, to which path, in
which format. -/

/-- The three on-disk formats the notebook exports to. -/
inductive ExportFormat where
  | geopackage
  | shapefile
  | svg
deriving DecidableEq

/-- One file-write effect: the serialized graph, its destination path and
its format. -/
structure FileWrite where
  path : String
  format : ExportFormat
  graph : MultiDiGraph
deriving DecidableEq

/-- Modelled from the spec: `ox.save_graph_geopackage(G, filepath=...)`
(implementation owned by osmnx): serialize `G` as a GeoPackage at `filepath`. -/
def save_graph_geopackage (G : MultiDiGraph) (filepath : String) : FileWrite :=
  ⟨filepath, .geopackage, G⟩

/-- Modelled from the spec: `ox.save_graph_shapefile(G, filepath=...)`
(implementation owned by osmnx): serialize `G` as a Shapefile directory
at `filepath`. -/
def save_graph_shapefile (G : MultiDiGraph) (filepath : String) : FileWrite :=
  ⟨filepath, .shapefile, G⟩

/-- Modelled from the spec: `ox.plot_graph(G, save=True, filepath=...)`
(implementation owned by osmnx): render `G` and save the figure as an
SVG image at `filepath`. -/
def plot_graph_save (G : MultiDiGraph) (filepath : String) : FileWrite :=
  ⟨filepath, .svg, G⟩

/-- The export step (cells 41, 44, 46): the file writes it performs, in
notebook order, with the paths written in the source. -/
def exportStep (G : MultiDiGraph) : List FileWrite :=
  [save_graph_geopackage G "./data-output/hk_graph.gpkg",
   save_graph_shapefile G "./data-output/hk_graph/",
   plot_graph_save G "./hk_graph.svg"]

/-! ## Max-betweenness node (cell 34)

`max_node, max_bc = max(bc.items(), key=lambda x: x[1])`. -/

/-- One step of Python's `max` scan: keep the incumbent unless the next
item's key is strictly greater (so the first maximum wins). -/
def pyMaxStep (best x : Nat × ℚ) : Nat × ℚ := if best.2 < x.2 then x else best

/-- Python `max(items, key=lambda x: x[1])` over the items of a dict:
`None`-free on nonempty input, raises (here: `none`) on empty input. -/
def pyMaxItems : List (Nat × ℚ) → Option (Nat × ℚ)
  | [] => none
  | x :: xs => some (xs.foldl pyMaxStep x)

/-! ## Highlight plot options (cell 36) -/

/-- `nc = ["r" if node == max_node else "w" for node in hk_graph.nodes]`. -/
def highlightColors (G : MultiDiGraph) (maxNode : Nat) : List String :=
  (nodeIds G).map (fun node => if node = maxNode then "r" else "w")

/-- `ns = [80 if node == max_node else 5 for node in hk_graph.nodes]`. -/
def highlightSizes (G : MultiDiGraph) (maxNode : Nat) : List Nat :=
  (nodeIds G).map (fun node => if node = maxNode then 80 else 5)

/-! ## Summary statistics

`ox.basic_stats` returns a dict of scalar measures plus two nested dicts
(`streets_per_node_counts`, `streets_per_node_proportions`) keyed by
integer street counts. -/

/-- A value in the statistics dictionary: a scalar, or a nested
integer-keyed table. -/
inductive StatsVal where
  | num (q : ℚ)
  | table (entries : List (Nat × ℚ))
deriving DecidableEq

/-- The statistics dictionary as a value (string keys, insertion order). -/
abbrev StatsTree := List (String × StatsVal)

/-- Cell 28's flattening, as a value computation: copy each nested
`counts` / `proportions` entry `k ↦ x` into flat keys `"{k}way_int_count"`
(written here by string concatenation) and `"{k}way_int_prop"`, then
delete the two nested keys. -/
def unpackStats (stats : StatsTree) (counts props : List (Nat × ℚ)) : StatsTree :=
  let d1 := counts.foldl
    (fun d kc => dictSet d (toString kc.1 ++ "way_int_count") (StatsVal.num kc.2)) stats
  let d2 := props.foldl
    (fun d kp => dictSet d (toString kp.1 ++ "way_int_prop") (StatsVal.num kp.2)) d1
  dictDel (dictDel d2 "streets_per_node_counts") "streets_per_node_proportions"

/-! ## The notebook as a sequence of cells

Each code cell is a function from the notebook's variable state to
`Except E` of the new state: external-library failures surface as
`Except.error`, and nothing in the notebook source wraps any call in a
handler.  The external calls themselves are parameters (`ExtEnv`). -/

/-- The notebook's global variables (with Python-irrelevant defaults
before first assignment; the linear cell order always assigns before use). -/
structure NBState where
  hk_graph : MultiDiGraph := ⟨[], []⟩
  tokyo_pre_boundary : List (BoundaryRow Nat) := []
  chiyoda : List (BoundaryRow Nat) := []
  chiyoda_graph : MultiDiGraph := ⟨[], []⟩
  ty_graph : MultiDiGraph := ⟨[], []⟩
  stats : StatsTree := []
  stats_unpack : StatsTree := []
  bc : List (Nat × ℚ) := []
  max_node : Nat := 0
  max_bc : ℚ := 0
deriving DecidableEq

/-- The external library surface the notebook calls, each call fallible
(network, query, geometry or filesystem failures happen inside these).
`value_error` / `key_error` stand for the exceptions Python itself raises
in-cell (`max` on an empty sequence, missing dict key / row index). -/
structure ExtEnv (E : Type) where
  graph_from_point : ℚ × ℚ → ℚ → String → Except E MultiDiGraph
  plot_graph : MultiDiGraph → Except E Unit
  read_file : String → Except E (List (BoundaryRow Nat))
  graph_from_polygon : Nat → Except E MultiDiGraph
  plot_graph_folium : MultiDiGraph → Except E Unit
  graph_from_place : String → Except E MultiDiGraph
  basic_stats : MultiDiGraph → Except E StatsTree
  get_node_colors_by_attr : MultiDiGraph → String → Except E (List String)
  save_graph_geopackage : MultiDiGraph → String → Except E Unit
  save_graph_shapefile : MultiDiGraph → String → Except E Unit
  plot_graph_file : MultiDiGraph → String → Except E Unit
  value_error : E
  key_error : E

/-- Run a list of cells in order: each cell runs on the state left by its
predecessor, and an error stops execution at that cell (this is the
top-level notebook evaluation loop, which has no handler of its own). -/
def runCells {E : Type} : List (NBState → Except E NBState) → NBState → Except E NBState
  | [], s => .ok s
  | c :: cs, s =>
    match c s with
    | .error e => .error e
    | .ok s' => runCells cs s'

/-- The notebook's code cells, in source order, embedded one-to-one from
the source: no cell catches, retries, or recovers from anything. -/
def notebookCells {E : Type} (ext : ExtEnv E) : List (NBState → Except E NBState) :=
  [ -- cell: hk_graph = ox.graph_from_point(center_point=(22.3192, 114.1693),
    --        dist=1000, network_type="all_private")
   fun s =>
     match ext.graph_from_point (22.3192, 114.1693) 1000 "all_private" with
     | .error e => .error e
     | .ok g => .ok { s with hk_graph := g },
   -- cell: ox.plot_graph(hk_graph, node_color="w", node_size=5)
   fun s =>
     match ext.plot_graph s.hk_graph with
     | .error e => .error e
     | .ok _ => .ok s,
   -- cell: tokyo_pre_boundary = gpd.read_file(BOUNDARY_URL)
   fun s =>
     match ext.read_file BOUNDARY_URL with
     | .error e => .error e
     | .ok df => .ok { s with tokyo_pre_boundary := df },
   -- cell: chiyoda = tokyo_pre_boundary[tokyo_pre_boundary.N03_004 == "千代田区"]
   fun s => .ok { s with chiyoda := chiyodaOf s.tokyo_pre_boundary },
   -- cell: chiyoda_graph = ox.graph_from_polygon(chiyoda['geometry'][0])
   fun s =>
     match s.chiyoda.head? with
     | none => .error ext.key_error
     | some r =>
       match ext.graph_from_polygon r.rest with
       | .error e => .error e
       | .ok g => .ok { s with chiyoda_graph := g },
   -- cell: ox.plot_graph(chiyoda_graph)
   fun s =>
     match ext.plot_graph s.chiyoda_graph with
     | .error e => .error e
     | .ok _ => .ok s,
   -- cell: chiyoda_folium = ox.plot_graph_folium(chiyoda_graph, ...)
   fun s =>
     match ext.plot_graph_folium s.chiyoda_graph with
     | .error e => .error e
     | .ok _ => .ok s,
   -- cell: ty_graph = ox.graph_from_place("Tsing Yi, Hong Kong")
   fun s =>
     match ext.graph_from_place "Tsing Yi, Hong Kong" with
     | .error e => .error e
     | .ok g => .ok { s with ty_graph := g },
   -- cell: stats = ox.basic_stats(hk_graph)
   fun s =>
     match ext.basic_stats s.hk_graph with
     | .error e => .error e
     | .ok st => .ok { s with stats := st },
   -- cell: stats_unpack = deepcopy(stats); unpack loop; del nested keys
   fun s =>
     match dictGet s.stats "streets_per_node_counts",
           dictGet s.stats "streets_per_node_proportions" with
     | some (.table counts), some (.table props) =>
       .ok { s with stats_unpack := unpackStats s.stats counts props }
     | _, _ => .error ext.key_error,
   -- cell: nc_street_count = ox.plot.get_node_colors_by_attr(hk_graph,
   --       "street_count", ...); fig, ax = ox.plot_graph(hk_graph, ...)
   fun s =>
     match ext.get_node_colors_by_attr s.hk_graph "street_count" with
     | .error e => .error e
     | .ok _ =>
       match ext.plot_graph s.hk_graph with
       | .error e => .error e
       | .ok _ => .ok s,
   -- cell: hk_graph_di = ox.get_digraph(hk_graph);
   --       bc = nx.betweenness_centrality(hk_graph_di, weight="length");
   --       max_node, max_bc = max(bc.items(), key=lambda x: x[1])
   fun s =>
     let bc := betweenness_centrality (get_digraph s.hk_graph)
     match pyMaxItems bc with
     | none => .error ext.value_error
     | some m => .ok { s with bc := bc, max_node := m.1, max_bc := m.2 },
   -- cell: nc = [...]; ns = [...]; fig, ax = ox.plot_graph(hk_graph,
   --       node_size=ns, node_color=nc, node_zorder=2)
   fun s =>
     match ext.plot_graph s.hk_graph with
     | .error e => .error e
     | .ok _ => .ok s,
   -- cell: nx.set_node_attributes(hk_graph, bc, "bc");
   --       nc = ox.plot.get_node_colors_by_attr(hk_graph, "bc", ...);
   --       fig, ax = ox.plot_graph(hk_graph, ...)
   fun s =>
     let g := set_node_attributes s.hk_graph s.bc "bc"
     match ext.get_node_colors_by_attr g "bc" with
     | .error e => .error e
     | .ok _ =>
       match ext.plot_graph g with
       | .error e => .error e
       | .ok _ => .ok { s with hk_graph := g },
   -- cell: ox.save_graph_geopackage(hk_graph, filepath="./data-output/hk_graph.gpkg")
   fun s =>
     match ext.save_graph_geopackage s.hk_graph "./data-output/hk_graph.gpkg" with
     | .error e => .error e
     | .ok _ => .ok s,
   -- cell: ox.save_graph_shapefile(hk_graph, filepath="./data-output/hk_graph/")
   fun s =>
     match ext.save_graph_shapefile s.hk_graph "./data-output/hk_graph/" with
     | .error e => .error e
     | .ok _ => .ok s,
   -- cell: fig, ax = ox.plot_graph(hk_graph, show=False, save=True,
   --       close=True, filepath="./hk_graph.svg")
   fun s =>
     match ext.plot_graph_file s.hk_graph "./hk_graph.svg" with
     | .error e => .error e
     | .ok _ => .ok s]

/-- The state in which the notebook starts (no variable assigned yet). -/
def initState : NBState := {}

/-- The centrality-analysis step (cells 34 and 38, the part acting on the
graph): convert to a digraph, compute betweenness weighted by `length`,
attach the mapping as node attribute `"bc"`.  Returns the mapping and
the updated graph. -/
def centralityStep (G : MultiDiGraph) : List (Nat × ℚ) × MultiDiGraph :=
  let D := get_digraph G
  let bc := betweenness_centrality D
  (bc, set_node_attributes G bc "bc")

/-- A one-node street network with no edges, used to drive the pipeline
witnesses. -/
def wGraph : MultiDiGraph := ⟨[(1, [])], []⟩

/-- One boundary row, used by the pipeline witnesses. -/
def wRow : BoundaryRow Nat := ⟨"千代田区", 7⟩

/-- A statistics dictionary with both nested tables, as `basic_stats`
returns, used by the pipeline witnesses. -/
def wStats : StatsTree :=
  [("streets_per_node_counts", StatsVal.table []),
   ("streets_per_node_proportions", StatsVal.table [])]

/-- An external environment in which every call succeeds. -/
def okEnv : ExtEnv String where
  graph_from_point := fun _ _ _ => .ok wGraph
  plot_graph := fun _ => .ok ()
  read_file := fun _ => .ok [wRow]
  graph_from_polygon := fun _ => .ok wGraph
  plot_graph_folium := fun _ => .ok ()
  graph_from_place := fun _ => .ok wGraph
  basic_stats := fun _ => .ok wStats
  get_node_colors_by_attr := fun _ _ => .ok []
  save_graph_geopackage := fun _ _ => .ok ()
  save_graph_shapefile := fun _ _ => .ok ()
  plot_graph_file := fun _ _ => .ok ()
  value_error := "ValueError"
  key_error := "KeyError"

/-- An environment whose network-extraction call times out. -/
def failEnv : ExtEnv String :=
  { okEnv with graph_from_point := fun _ _ _ => .error "network timeout" }

/-- The centrality mapping the pipeline computes for `wGraph`. -/
def wBc : List (Nat × ℚ) := betweenness_centrality (get_digraph wGraph)

/-- The notebook state after a successful run under `okEnv`. -/
def wFinal : NBState where
  hk_graph := set_node_attributes wGraph wBc "bc"
  tokyo_pre_boundary := [wRow]
  chiyoda := chiyodaOf [wRow]
  chiyoda_graph := wGraph
  ty_graph := wGraph
  stats := wStats
  stats_unpack := unpackStats wStats [] []
  bc := wBc
  max_node := 1
  max_bc := bcScale (get_digraph wGraph).nodes.length *
    ((bcPairs (get_digraph wGraph) 1).map
      (fun st => pairRatio (get_digraph wGraph) 1 st.1 st.2)).sum

/-- A small concrete street network used to instantiate the theorems:
three nodes, a cheap two-hop route 1 -> 2 -> 3 (with a parallel duplicate
of the first segment) and an expensive direct edge 1 -> 3. -/
def sampleGraph : MultiDiGraph :=
  ⟨[(1, [("street_count", 3)]), (2, []), (3, [])],
   [(1, 2, 1), (1, 2, 3), (2, 3, 1), (1, 3, 5)]⟩

/-- The simple digraph of `sampleGraph`. -/
def sampleDigraph : DiGraph :=
  ⟨[1, 2, 3], [(1, 2, 1), (2, 3, 1), (1, 3, 5)]⟩

/-! ## The statistics-flattening cell on the Python heap (cell 28)

To give `deepcopy` its real content (mutating the copy must not reach the
original through aliasing), cell 28 is embedded against an explicit
object store: dictionaries are heap objects referenced by address,
`copy.deepcopy` allocates fresh objects, and the subsequent subscript
assignments and `del` statements mutate only the copy's address. -/

/-- A value stored in a top-level dict: a number, or a reference to a
nested dict object. -/
inductive HVal where
  | num (q : ℚ)
  | ref (a : Nat)
deriving DecidableEq

/-- A heap object: the top-level string-keyed dict, or a nested
integer-keyed table of numbers. -/
inductive HObj where
  | dict (entries : List (String × HVal))
  | table (entries : List (Nat × ℚ))
deriving DecidableEq

/-- The Python object store: address-to-object bindings plus the next
fresh address. -/
structure Store where
  mem : List (Nat × HObj)
  next : Nat
deriving DecidableEq

/-- The object at address `a`. -/
def storeGet (st : Store) (a : Nat) : Option HObj := dictGet st.mem a

/-- Overwrite the object at address `a`. -/
def storeSet (st : Store) (a : Nat) (o : HObj) : Store :=
  { st with mem := dictSet st.mem a o }

/-- Allocate a fresh object; returns its (fresh) address. -/
def allocObj (st : Store) (o : HObj) : Nat × Store :=
  (st.next, { mem := st.mem ++ [(st.next, o)], next := st.next + 1 })

/-- Read the stats dictionary entries rooted at a top-level dict,
dereferencing nested tables. -/
def loadEntries (st : Store) : List (String × HVal) → Option StatsTree
  | [] => some []
  | (k, .num q) :: rest => (loadEntries st rest).map (fun r => (k, .num q) :: r)
  | (k, .ref b) :: rest =>
    match storeGet st b with
    | some (.table tb) => (loadEntries st rest).map (fun r => (k, .table tb) :: r)
    | _ => none

/-- The full value of the stats dictionary at address `a` (the keys, the
scalar values, and the contents of both nested dictionaries). -/
def loadStats (st : Store) (a : Nat) : Option StatsTree :=
  match storeGet st a with
  | some (.dict es) => loadEntries st es
  | _ => none

/-- Allocate fresh nested-table objects for a stats value, returning the
top-level entry list referencing the fresh copies. -/
def allocEntries : Store → StatsTree → Store × List (String × HVal)
  | st, [] => (st, [])
  | st, (k, .num q) :: rest =>
    ((allocEntries st rest).1, (k, .num q) :: (allocEntries st rest).2)
  | st, (k, .table tb) :: rest =>
    ((allocEntries (allocObj st (.table tb)).2 rest).1,
     (k, .ref (allocObj st (.table tb)).1) ::
       (allocEntries (allocObj st (.table tb)).2 rest).2)

/-- Modelled from the spec: `copy.deepcopy(stats)` (implementation owned
by the standard library): read the whole object graph rooted at `a` and
rebuild it out of freshly allocated objects, returning the new root. -/
def deepcopy (st : Store) (a : Nat) : Option (Store × Nat) :=
  (loadStats st a).map (fun t =>
    ((allocObj (allocEntries st t).1 (.dict (allocEntries st t).2)).2,
     (allocObj (allocEntries st t).1 (.dict (allocEntries st t).2)).1))

/-- The nested table bound to key `key` of the top-level dict at `a`
(the `stats_unpack["streets_per_node_counts"]` subscript chain). -/
def getTable (st : Store) (a : Nat) (key : String) : Option (List (Nat × ℚ)) :=
  match storeGet st a with
  | some (.dict es) =>
    match dictGet es key with
    | some (.ref b) =>
      match storeGet st b with
      | some (.table tb) => some tb
      | _ => none
    | _ => none
  | _ => none

/-- Subscript assignment `d[k] = num` on the top-level dict at `a`
(mutates only the object at `a`). -/
def setTopNum (st : Store) (a : Nat) (k : String) (q : ℚ) : Store :=
  match storeGet st a with
  | some (.dict es) => storeSet st a (.dict (dictSet es k (.num q)))
  | _ => st

/-- `del d[k]` on the top-level dict at `a`: removes the binding, raising
(`none`) if the key is absent or `a` is not a dict. -/
def delTop (st : Store) (a : Nat) (k : String) : Option Store :=
  match storeGet st a with
  | some (.dict es) =>
    match dictGet es k with
    | some _ => some (storeSet st a (.dict (dictDel es k)))
    | none => none
  | _ => none

/-- Cell 28 on the heap: `stats_unpack = deepcopy(stats)`, the two
item-copying loops, and the two `del` statements, all applied to the
copy's address.  Returns the final store and the copy's address. -/
def unpackCell (st : Store) (statsAddr : Nat) : Option (Store × Nat) :=
  (deepcopy st statsAddr).bind (fun p =>
    let st1 := p.1
    let ua := p.2
    (getTable st1 ua "streets_per_node_counts").bind (fun counts =>
      let st2 := counts.foldl
        (fun st kc => setTopNum st ua (toString kc.1 ++ "way_int_count") kc.2) st1
      (getTable st2 ua "streets_per_node_proportions").bind (fun props =>
        let st3 := props.foldl
          (fun st kp => setTopNum st ua (toString kp.1 ++ "way_int_prop") kp.2) st2
        (delTop st3 ua "streets_per_node_counts").bind (fun st4 =>
          (delTop st4 ua "streets_per_node_proportions").map (fun st5 =>
            (st5, ua))))))

/-- A concrete stats store: the dict at address `0` holds a scalar and
references to the two nested tables at addresses `1` and `2`. -/
def wStore : Store :=
  ⟨[(0, .dict [("n", .num 5),
      ("streets_per_node_counts", .ref 1),
      ("streets_per_node_proportions", .ref 2)]),
    (1, .table [(3, 4)]),
    (2, .table [(3, 1)])], 3⟩

/-- The store after running the flattening cell on `wStore`: the copy
(addresses `3`–`5`) was flattened; addresses `0`–`2` are untouched. -/
def wStoreFinal : Store :=
  ⟨[(0, .dict [("n", .num 5),
      ("streets_per_node_counts", .ref 1),
      ("streets_per_node_proportions", .ref 2)]),
    (1, .table [(3, 4)]),
    (2, .table [(3, 1)]),
    (3, .table [(3, 4)]),
    (4, .table [(3, 1)]),
    (5, .dict [("n", .num 5),
      ("3way_int_count", .num 4),
      ("3way_int_prop", .num 1)])], 6⟩

theorem dictGet_dictSet_self {α β : Type} [DecidableEq α]
    (d : List (α × β)) (k : α) (v : β) : dictGet (dictSet d k v) k = some v := by
  induction d with
  | nil => simp [dictGet, dictSet]
  | cons p rest ih =>
    by_cases h : p.1 = k <;> simp [dictGet, dictSet, h, ih]

theorem dictGet_dictSet_ne {α β : Type} [DecidableEq α]
    (d : List (α × β)) (k k' : α) (v : β) (h : k' ≠ k) :
    dictGet (dictSet d k v) k' = dictGet d k' := by
  induction d with
  | nil => simp [dictGet, dictSet, h, Ne.symm h]
  | cons p rest ih =>
    by_cases hp : p.1 = k
    · simp [dictGet, dictSet, hp, h, Ne.symm h]
    · by_cases hp' : p.1 = k' <;> simp [dictGet, dictSet, hp, hp', ih, h, Ne.symm h]

theorem dictGet_append_left {α β : Type} [DecidableEq α]
    (d d' : List (α × β)) (k : α) (v : β) (h : dictGet d k = some v) :
    dictGet (d ++ d') k = some v := by
  induction d with
  | nil => simp [dictGet] at h
  | cons p rest ih =>
    by_cases hp : p.1 = k <;> simp_all [dictGet]

/-- With pairwise-distinct keys, membership determines the lookup. -/
theorem dictGet_eq_of_mem {α β : Type} [DecidableEq α]
    (d : List (α × β)) (k : α) (v : β)
    (hnd : (d.map Prod.fst).Nodup) (hmem : (k, v) ∈ d) :
    dictGet d k = some v := by
  induction d with
  | nil => simp at hmem
  | cons p rest ih =>
    simp only [List.map_cons, List.nodup_cons] at hnd
    rcases List.mem_cons.mp hmem with h | h
    · subst h; simp [dictGet]
    · have hk : p.1 ≠ k := by
        intro hk
        exact hnd.1 (hk ▸ (List.mem_map.mpr ⟨(k, v), h, rfl⟩))
      simp [dictGet, hk, ih hnd.2 h]

/-- Lookup in a list of `(v, f v)` pairs built by `map`. -/
theorem dictGet_map_self {α β : Type} [DecidableEq α]
    (l : List α) (f : α → β) (v : α) (hv : v ∈ l) :
    dictGet (l.map (fun x => (x, f x))) v = some (f v) := by
  induction l with
  | nil => simp at hv
  | cons a rest ih =>
    by_cases h : a = v
    · subst h; simp [dictGet]
    · rcases List.mem_cons.mp hv with h' | h'
      · exact absurd h'.symm h
      · simp [dictGet, h, ih h']

theorem set_node_attributes_nodes (G : MultiDiGraph) (vals : List (Nat × ℚ))
    (nm : String) :
    (set_node_attributes G vals nm).nodes = G.nodes.map (setAttrUpdate vals nm) := rfl

theorem setAttrUpdate_fst (vals : List (Nat × ℚ)) (nm : String)
    (na : Nat × List (String × ℚ)) : (setAttrUpdate vals nm na).1 = na.1 := by
  unfold setAttrUpdate
  cases dictGet vals na.1 <;> rfl

theorem getNodeAttr_set_self (G : MultiDiGraph) (vals : List (Nat × ℚ)) (nm : String)
    (n : Nat) (x : ℚ) (hn : n ∈ nodeIds G) (hx : dictGet vals n = some x) :
    getNodeAttr (set_node_attributes G vals nm) n nm = some x := by
  obtain ⟨ns, es⟩ := G
  simp only [nodeIds, set_node_attributes_nodes] at hn ⊢
  simp only [getNodeAttr, set_node_attributes_nodes]
  induction ns with
  | nil => simp at hn
  | cons na rest ih =>
    rw [List.map_cons] at hn ⊢
    by_cases h : na.1 = n
    · have hd : dictGet vals na.1 = some x := by rw [h]; exact hx
      have hhead : setAttrUpdate vals nm na = (na.1, dictSet na.2 nm x) := by
        unfold setAttrUpdate; rw [hd]
      rw [hhead, List.find?_cons_of_pos _ (by simp [h])]
      simp [dictGet_dictSet_self]
    · rw [List.find?_cons_of_neg _ (by simp [setAttrUpdate_fst, h])]
      refine ih ?_
      rcases List.mem_cons.mp hn with h' | h'
      · exact absurd h'.symm h
      · exact h'

theorem getNodeAttr_set_ne (G : MultiDiGraph) (vals : List (Nat × ℚ)) (nm : String)
    (n : Nat) (a : String) (ha : a ≠ nm) :
    getNodeAttr (set_node_attributes G vals nm) n a = getNodeAttr G n a := by
  obtain ⟨ns, es⟩ := G
  simp only [getNodeAttr, set_node_attributes_nodes]
  induction ns with
  | nil => simp
  | cons na rest ih =>
    rw [List.map_cons]
    by_cases h : na.1 = n
    · cases hdv : dictGet vals na.1 with
      | none =>
        have hhead : setAttrUpdate vals nm na = na := by
          unfold setAttrUpdate; rw [hdv]
        rw [hhead, List.find?_cons_of_pos _ (by simp [h]),
          List.find?_cons_of_pos _ (by simp [h])]
      | some v =>
        have hhead : setAttrUpdate vals nm na = (na.1, dictSet na.2 nm v) := by
          unfold setAttrUpdate; rw [hdv]
        rw [hhead, List.find?_cons_of_pos _ (by simp [h]),
          List.find?_cons_of_pos _ (by simp [h])]
        simp [dictGet_dictSet_ne _ _ _ _ ha]
    · cases hdv : dictGet vals na.1 with
      | none =>
        have hhead : setAttrUpdate vals nm na = na := by
          unfold setAttrUpdate; rw [hdv]
        rw [hhead, List.find?_cons_of_neg _ (by simp [h]),
          List.find?_cons_of_neg _ (by simp [h])]
        exact ih
      | some v =>
        have hhead : setAttrUpdate vals nm na = (na.1, dictSet na.2 nm v) := by
          unfold setAttrUpdate; rw [hdv]
        rw [hhead, List.find?_cons_of_neg _ (by simp [h]),
          List.find?_cons_of_neg _ (by simp [h])]
        exact ih

theorem nodeIds_set_node_attributes (G : MultiDiGraph) (vals : List (Nat × ℚ))
    (nm : String) : nodeIds (set_node_attributes G vals nm) = nodeIds G := by
  simp only [nodeIds, set_node_attributes_nodes, List.map_map]
  exact List.map_congr_left (fun na _ => setAttrUpdate_fst vals nm na)

/-! ## C7: no step other than the centrality attachment touches the graph -/

theorem set_node_attributes_edges (G : MultiDiGraph) (vals : List (Nat × ℚ))
    (nm : String) : (set_node_attributes G vals nm).edges = G.edges := rfl

/-- C7: across the whole cell sequence, the graph bound to `hk_graph` is
changed exactly once — by the `"bc"` attachment: whenever a run succeeds,
the final graph is `set_node_attributes` of the originally extracted
graph, so its edges and node sequence are untouched and every node
attribute other than `"bc"` is unchanged. -/
theorem only_centrality_mutates_graph {E : Type} (ext : ExtEnv E)
    (s0 sF : NBState) (g0 : MultiDiGraph)
    (hrun : runCells (notebookCells ext) s0 = .ok sF)
    (hg0 : ext.graph_from_point (22.3192, 114.1693) 1000 "all_private" = .ok g0) :
    sF.hk_graph =
      set_node_attributes g0 (betweenness_centrality (get_digraph g0)) "bc" ∧
    sF.hk_graph.edges = g0.edges ∧
    nodeIds sF.hk_graph = nodeIds g0 ∧
    ∀ (n : Nat) (a : String), a ≠ "bc" →
      getNodeAttr sF.hk_graph n a = getNodeAttr g0 n a := by
  simp only [notebookCells, runCells] at hrun
  cases h1 : ext.graph_from_point (22.3192, 114.1693) 1000 "all_private" with
  | error e => simp [h1] at hrun
  | ok g =>
  simp only [h1] at hrun
  rw [h1] at hg0
  have hg : g0 = g := (Except.ok.inj hg0).symm
  subst hg
  cases h2 : ext.plot_graph g0 with
  | error e => simp [h2] at hrun
  | ok u2 =>
  simp only [h2] at hrun
  cases h3 : ext.read_file BOUNDARY_URL with
  | error e => simp [h3] at hrun
  | ok df =>
  simp only [h3] at hrun
  cases h4 : (chiyodaOf df).head? with
  | none => simp [h4] at hrun
  | some r =>
  simp only [h4] at hrun
  cases h5 : ext.graph_from_polygon r.rest with
  | error e => simp [h5] at hrun
  | ok g2 =>
  simp only [h5] at hrun
  cases h6 : ext.plot_graph g2 with
  | error e => simp [h6] at hrun
  | ok u6 =>
  simp only [h6] at hrun
  cases h7 : ext.plot_graph_folium g2 with
  | error e => simp [h7] at hrun
  | ok u7 =>
  simp only [h7] at hrun
  cases h8 : ext.graph_from_place "Tsing Yi, Hong Kong" with
  | error e => simp [h8] at hrun
  | ok g3 =>
  simp only [h8] at hrun
  cases h9 : ext.basic_stats g0 with
  | error e => simp [h9] at hrun
  | ok st =>
  simp only [h9] at hrun
  cases h10 : dictGet st "streets_per_node_counts" with
  | none => simp [h10] at hrun
  | some v10 =>
  cases v10 with
  | num q => simp [h10] at hrun
  | table counts =>
  cases h11 : dictGet st "streets_per_node_proportions" with
  | none => simp [h10, h11] at hrun
  | some v11 =>
  cases v11 with
  | num q => simp [h10, h11] at hrun
  | table props =>
  simp only [h10, h11] at hrun
  cases h12 : ext.get_node_colors_by_attr g0 "street_count" with
  | error e => simp [h12] at hrun
  | ok cs12 =>
  simp only [h12] at hrun
  cases h13 : ext.plot_graph g0 with
  | error e => simp [h13] at hrun
  | ok u13 =>
  simp only [h13] at hrun
  cases h14 : pyMaxItems (betweenness_centrality (get_digraph g0)) with
  | none => simp [h14] at hrun
  | some m =>
  simp only [h14] at hrun
  cases h15 : ext.plot_graph g0 with
  | error e => simp [h15] at hrun
  | ok u15 =>
  simp only [h15] at hrun
  cases h16 : ext.get_node_colors_by_attr
      (set_node_attributes g0 (betweenness_centrality (get_digraph g0)) "bc") "bc" with
  | error e => simp [h16] at hrun
  | ok cs16 =>
  simp only [h16] at hrun
  cases h17 : ext.plot_graph
      (set_node_attributes g0 (betweenness_centrality (get_digraph g0)) "bc") with
  | error e => simp [h17] at hrun
  | ok u17 =>
  simp only [h17] at hrun
  cases h18 : ext.save_graph_geopackage
      (set_node_attributes g0 (betweenness_centrality (get_digraph g0)) "bc")
      "./data-output/hk_graph.gpkg" with
  | error e => simp [h18] at hrun
  | ok u18 =>
  simp only [h18] at hrun
  cases h19 : ext.save_graph_shapefile
      (set_node_attributes g0 (betweenness_centrality (get_digraph g0)) "bc")
      "./data-output/hk_graph/" with
  | error e => simp [h19] at hrun
  | ok u19 =>
  simp only [h19] at hrun
  cases h20 : ext.plot_graph_file
      (set_node_attributes g0 (betweenness_centrality (get_digraph g0)) "bc")
      "./hk_graph.svg" with
  | error e => simp [h20] at hrun
  | ok u20 =>
  simp only [h20] at hrun
  have hF : sF =
      { hk_graph := set_node_attributes g0 (betweenness_centrality (get_digraph g0)) "bc",
        tokyo_pre_boundary := df, chiyoda := chiyodaOf df, chiyoda_graph := g2,
        ty_graph := g3, stats := st,
        stats_unpack := unpackStats st counts props,
        bc := betweenness_centrality (get_digraph g0),
        max_node := m.1, max_bc := m.2 } := by
    cases hrun
    rfl
  subst hF
  refine ⟨rfl, rfl, nodeIds_set_node_attributes _ _ _, fun n a ha => ?_⟩
  exact getNodeAttr_set_ne _ _ _ _ _ ha

/-- Witness for C7: a successful run under `okEnv` leaves exactly the
`"bc"`-attached version of the extracted graph. -/
theorem only_centrality_mutates_graph_witness :
    wFinal.hk_graph =
      set_node_attributes wGraph (betweenness_centrality (get_digraph wGraph)) "bc" :=
  (only_centrality_mutates_graph okEnv initState wFinal wGraph rfl rfl).1

/-! ## C1: the centrality step attaches the computed scores as `"bc"` -/

/-- C1: the centrality-analysis step converts the multigraph to a simple
digraph, computes length-weighted betweenness centrality on it, and
attaches the mapping to the original multigraph, so that every node of
the graph appearing in the mapping ends up carrying attribute `"bc"`
equal to its computed score. -/
theorem centralityStep_attaches_bc (G : MultiDiGraph) (n : Nat) (x : ℚ)
    (hn : n ∈ nodeIds G) (hx : dictGet (centralityStep G).1 n = some x) :
    getNodeAttr (centralityStep G).2 n "bc" = some x := by
  have h1 : (centralityStep G).1 = betweenness_centrality (get_digraph G) := rfl
  have h2 : (centralityStep G).2 =
      set_node_attributes G (betweenness_centrality (get_digraph G)) "bc" := rfl
  rw [h2]
  exact getNodeAttr_set_self G _ "bc" n x hn (h1 ▸ hx)

/-- Witness for C1 on the sample graph: node `2` ends up carrying its
computed centrality score as attribute `"bc"`. -/
theorem centralityStep_attaches_bc_witness :
    getNodeAttr (centralityStep sampleGraph).2 2 "bc" =
      some (bcScale (get_digraph sampleGraph).nodes.length *
        ((bcPairs (get_digraph sampleGraph) 2).map
          (fun st => pairRatio (get_digraph sampleGraph) 2 st.1 st.2)).sum) :=
  centralityStep_attaches_bc sampleGraph 2 _ (by decide) rfl

/-! ## C5: the boundary table is filtered by district-name equality -/

/-- C5: the boundary-acquisition step keeps a row of the loaded table if
and only if its `N03_004` attribute equals `"千代田区"`, and the kept rows
appear unchanged (a sublist of the original table, in order). -/
theorem chiyoda_filter_selects_by_name {α : Type} (df : List (BoundaryRow α)) :
    (∀ r, r ∈ chiyodaOf df ↔ r ∈ df ∧ r.N03_004 = "千代田区") ∧
      List.Sublist (chiyodaOf df) df := by
  refine ⟨fun r => ?_, List.filter_sublist df⟩
  simp [chiyodaOf, filterDistrict, List.mem_filter]

/-! ## C6: the export step writes the three formats to fixed relative paths -/

/-- C6: the export step serializes the in-memory graph to GeoPackage,
Shapefile and SVG, in that order, each written to its fixed relative
output path. -/
theorem exportStep_writes_three_formats (G : MultiDiGraph) :
    (exportStep G).map (fun w => (w.format, w.path)) =
      [(ExportFormat.geopackage, "./data-output/hk_graph.gpkg"),
       (ExportFormat.shapefile, "./data-output/hk_graph/"),
       (ExportFormat.svg, "./hk_graph.svg")] ∧
    ∀ w ∈ exportStep G, w.graph = G ∧ w.path.take 2 = "./" := by
  refine ⟨rfl, ?_⟩
  intro w hw
  simp only [exportStep, save_graph_geopackage, save_graph_shapefile,
    plot_graph_save, List.mem_cons, List.not_mem_nil, or_false] at hw
  rcases hw with h | h | h <;> subst h <;> exact ⟨rfl, rfl⟩

/-! ## C8: `max(bc.items(), key=...)` returns a maximal entry -/

theorem pyMax_foldl_spec (xs : List (Nat × ℚ)) (x : Nat × ℚ) :
    (xs.foldl pyMaxStep x = x ∨ xs.foldl pyMaxStep x ∈ xs) ∧
      x.2 ≤ (xs.foldl pyMaxStep x).2 ∧
      ∀ p ∈ xs, p.2 ≤ (xs.foldl pyMaxStep x).2 := by
  induction xs generalizing x with
  | nil => simp
  | cons y ys ih =>
    have hstep : pyMaxStep x y = x ∨ pyMaxStep x y = y := by
      unfold pyMaxStep; split <;> simp
    have hx : x.2 ≤ (pyMaxStep x y).2 := by
      unfold pyMaxStep; split
      · exact le_of_lt (by assumption)
      · exact le_rfl
    have hy : y.2 ≤ (pyMaxStep x y).2 := by
      unfold pyMaxStep; split
      · exact le_rfl
      · exact le_of_not_lt (by assumption)
    obtain ⟨h1, h2, h3⟩ := ih (pyMaxStep x y)
    rw [List.foldl_cons]
    refine ⟨?_, le_trans hx h2, ?_⟩
    · rcases h1 with h | h
      · rw [h]
        rcases hstep with h' | h'
        · exact Or.inl h'
        · refine Or.inr ?_
          rw [h']
          exact List.mem_cons_self y ys
      · exact Or.inr (List.mem_cons_of_mem y h)
    · intro p hp
      rcases List.mem_cons.mp hp with h | h
      · rw [h]
        exact le_trans hy h2
      · exact h3 p h

/-- C8: on a nonempty centrality dictionary, `max(bc.items(), key=...)`
returns a pair whose first component is a key of the dictionary, whose
second component is that key's value, and whose value is greater than or
equal to every value in the dictionary. -/
theorem pyMax_selects_maximal (l : List (Nat × ℚ)) (hne : l ≠ [])
    (hnd : (l.map Prod.fst).Nodup) :
    (pyMaxItems l).isSome = true ∧
      ∀ m, pyMaxItems l = some m →
        m ∈ l ∧ dictGet l m.1 = some m.2 ∧ ∀ p ∈ l, p.2 ≤ m.2 := by
  cases l with
  | nil => exact absurd rfl hne
  | cons x xs =>
    obtain ⟨h1, h2, h3⟩ := pyMax_foldl_spec xs x
    have hmem : xs.foldl pyMaxStep x ∈ x :: xs := by
      rcases h1 with h | h
      · rw [h]
        exact List.mem_cons_self x xs
      · exact List.mem_cons_of_mem x h
    refine ⟨rfl, fun m hm => ?_⟩
    have hm' : m = xs.foldl pyMaxStep x := by
      simpa [pyMaxItems] using hm.symm
    subst hm'
    refine ⟨hmem, dictGet_eq_of_mem _ _ _ hnd hmem, ?_⟩
    intro p hp
    rcases List.mem_cons.mp hp with h | h
    · exact h ▸ h2
    · exact h3 p h

/-- Witness for C8 on a concrete two-entry dictionary: the returned pair
is the first entry, and lookup of its key yields its value. -/
theorem pyMax_selects_maximal_witness :
    dictGet [(1, Rat.mk' 1 2), (2, Rat.mk' 1 3)] 1 = some (Rat.mk' 1 2) :=
  ((pyMax_selects_maximal [(1, Rat.mk' 1 2), (2, Rat.mk' 1 3)]
    (by decide) (by decide)).2 (1, Rat.mk' 1 2) rfl).2.1

/-! ## C9: the highlight option lists mark exactly the selected node -/

/-- C9: `nc` and `ns` have one entry per node of the graph in iteration
order; an entry is `"r"` (respectively `80`) exactly when its node is
`max_node`, and `"w"` (respectively `5`) otherwise. -/
theorem highlight_lists_mark_max_node (G : MultiDiGraph) (maxNode : Nat) :
    (highlightColors G maxNode).length = (nodeIds G).length ∧
    (highlightSizes G maxNode).length = (nodeIds G).length ∧
    ∀ (i : Nat) (n : Nat), (nodeIds G)[i]? = some n →
      (((highlightColors G maxNode)[i]? = some "r") ↔ n = maxNode) ∧
      (n ≠ maxNode → (highlightColors G maxNode)[i]? = some "w") ∧
      (((highlightSizes G maxNode)[i]? = some 80) ↔ n = maxNode) ∧
      (n ≠ maxNode → (highlightSizes G maxNode)[i]? = some 5) := by
  refine ⟨List.length_map _ _, List.length_map _ _, ?_⟩
  intro i n hn
  have hc : (highlightColors G maxNode)[i]? =
      some (if n = maxNode then "r" else "w") := by
    simp [highlightColors, List.getElem?_map, hn]
  have hs : (highlightSizes G maxNode)[i]? =
      some (if n = maxNode then 80 else 5) := by
    simp [highlightSizes, List.getElem?_map, hn]
  by_cases h : n = maxNode <;> simp [h] at hc hs <;> simp [h, hc, hs]

/-- Witness for C9 on the sample graph with selected node `2`. -/
theorem highlight_lists_mark_max_node_witness :
    (((highlightColors sampleGraph 2)[0]? = some "r") ↔ 1 = 2) ∧
    ((1 : Nat) ≠ 2 → (highlightColors sampleGraph 2)[0]? = some "w") ∧
    (((highlightSizes sampleGraph 2)[0]? = some 80) ↔ 1 = 2) ∧
    ((1 : Nat) ≠ 2 → (highlightSizes sampleGraph 2)[0]? = some 5) :=
  (highlight_lists_mark_max_node sampleGraph 2).2.2 0 1 (by decide)

/-! ## C2: betweenness scores are normalized shortest-path fractions

The executable model counts shortest paths by enumeration; the spec
describes them propositionally (`IsShortestPath`) and counts them
set-theoretically.  The theorems below connect the two. -/

theorem hasEdgeB_exists (D : DiGraph) (a b : Nat) (h : hasEdgeB D a b = true) :
    ∃ e ∈ D.edges, e.1 = a ∧ e.2.1 = b := by
  unfold hasEdgeB edgeWeight at h
  cases hfind : D.edges.find? (fun e => decide (e.1 = a) && decide (e.2.1 = b)) with
  | none => rw [hfind] at h; simp at h
  | some e =>
    have hmem := List.mem_of_find?_eq_some hfind
    have hpe := List.find?_some hfind
    simp only [Bool.and_eq_true, decide_eq_true_eq] at hpe
    exact ⟨e, hmem, hpe⟩

theorem isPathB_mem_nodes (D : DiGraph)
    (hwf : ∀ e ∈ D.edges, e.1 ∈ D.nodes ∧ e.2.1 ∈ D.nodes) :
    ∀ (p : List Nat) (a : Nat), a ∈ D.nodes → isPathB D (a :: p) = true →
      ∀ x ∈ p, x ∈ D.nodes := by
  intro p
  induction p with
  | nil =>
    intro a _ _ x hx
    simp at hx
  | cons b rest ih =>
    intro a _ hpath x hx
    simp only [isPathB, Bool.and_eq_true] at hpath
    have hb : b ∈ D.nodes := by
      obtain ⟨e, he, he1, he2⟩ := hasEdgeB_exists D a b hpath.1
      exact he2 ▸ (hwf e he).2
    rcases List.mem_cons.mp hx with rfl | hx'
    · exact hb
    · exact ih b hb hpath.2 x hx'

theorem simplePath_subset (D : DiGraph)
    (hwf : ∀ e ∈ D.edges, e.1 ∈ D.nodes ∧ e.2.1 ∈ D.nodes)
    (s t : Nat) (hs : s ∈ D.nodes) (p : List Nat)
    (hp : IsSimplePath D s t p) : ∀ x ∈ p, x ∈ D.nodes := by
  obtain ⟨hhead, _, _, hpath⟩ := hp
  cases p with
  | nil => simp at hhead
  | cons a rest =>
    have ha : a = s := by simpa using hhead
    subst ha
    intro x hx
    rcases List.mem_cons.mp hx with rfl | hx'
    · exact hs
    · exact isPathB_mem_nodes D hwf rest a hs hpath x hx'

theorem mem_candidateSeqs (D : DiGraph) (p : List Nat)
    (hpn : p.Nodup) (hsub : ∀ x ∈ p, x ∈ D.nodes) : p ∈ candidateSeqs D := by
  unfold candidateSeqs
  rw [List.mem_dedup, List.mem_flatMap]
  obtain ⟨l, hl1, hl2⟩ := hpn.subperm hsub
  exact ⟨l, List.mem_sublists.mpr hl2, List.mem_permutations'.mpr hl1.symm⟩

theorem mem_simplePaths (D : DiGraph)
    (hwf : ∀ e ∈ D.edges, e.1 ∈ D.nodes ∧ e.2.1 ∈ D.nodes)
    (s t : Nat) (hs : s ∈ D.nodes) (p : List Nat) :
    p ∈ simplePaths D s t ↔ IsSimplePath D s t p := by
  unfold simplePaths
  rw [List.mem_filter, decide_eq_true_eq]
  constructor
  · exact fun h => h.2
  · intro h
    exact ⟨mem_candidateSeqs D p h.2.2.1 (simplePath_subset D hwf s t hs p h), h⟩

theorem mem_shortestPaths (D : DiGraph)
    (hwf : ∀ e ∈ D.edges, e.1 ∈ D.nodes ∧ e.2.1 ∈ D.nodes)
    (s t : Nat) (hs : s ∈ D.nodes) (p : List Nat) :
    p ∈ shortestPaths D s t ↔ IsShortestPath D s t p := by
  unfold shortestPaths
  rw [List.mem_filter, List.all_eq_true]
  unfold IsShortestPath
  constructor
  · rintro ⟨h1, h2⟩
    refine ⟨(mem_simplePaths D hwf s t hs p).mp h1, fun q hq => ?_⟩
    have := h2 q ((mem_simplePaths D hwf s t hs q).mpr hq)
    simpa using this
  · rintro ⟨h1, h2⟩
    refine ⟨(mem_simplePaths D hwf s t hs p).mpr h1, fun q hq => ?_⟩
    simpa using h2 q ((mem_simplePaths D hwf s t hs q).mp hq)

theorem shortestPaths_nodup (D : DiGraph) (s t : Nat) :
    (shortestPaths D s t).Nodup := by
  unfold shortestPaths simplePaths candidateSeqs
  exact ((List.nodup_dedup _).filter _).filter _

theorem numShortest_eq_ncard (D : DiGraph)
    (hwf : ∀ e ∈ D.edges, e.1 ∈ D.nodes ∧ e.2.1 ∈ D.nodes)
    (s t : Nat) (hs : s ∈ D.nodes) :
    numShortest D s t = Set.ncard {p | IsShortestPath D s t p} := by
  have hset : {p | IsShortestPath D s t p} = ↑(shortestPaths D s t).toFinset := by
    ext p
    simp [Set.mem_setOf_eq, List.mem_toFinset, mem_shortestPaths D hwf s t hs p]
  rw [hset, Set.ncard_coe_Finset,
    List.toFinset_card_of_nodup (shortestPaths_nodup D s t)]
  rfl

theorem numShortestThrough_eq_ncard (D : DiGraph)
    (hwf : ∀ e ∈ D.edges, e.1 ∈ D.nodes ∧ e.2.1 ∈ D.nodes)
    (v s t : Nat) (hs : s ∈ D.nodes) :
    numShortestThrough D v s t
      = Set.ncard {p | IsShortestPath D s t p ∧ v ∈ p} := by
  have hset : {p | IsShortestPath D s t p ∧ v ∈ p}
      = ↑((shortestPaths D s t).filter (fun p => decide (v ∈ p))).toFinset := by
    ext p
    simp [Set.mem_setOf_eq, List.mem_toFinset, List.mem_filter,
      mem_shortestPaths D hwf s t hs p]
  rw [hset, Set.ncard_coe_Finset,
    List.toFinset_card_of_nodup ((shortestPaths_nodup D s t).filter _)]
  rfl

theorem pairRatio_eq_ncard_div (D : DiGraph)
    (hwf : ∀ e ∈ D.edges, e.1 ∈ D.nodes ∧ e.2.1 ∈ D.nodes)
    (v s t : Nat) (hs : s ∈ D.nodes) :
    pairRatio D v s t =
      (Set.ncard {p | IsShortestPath D s t p ∧ v ∈ p} : ℚ) /
        (Set.ncard {p | IsShortestPath D s t p} : ℚ) := by
  unfold pairRatio
  rw [numShortest_eq_ncard D hwf s t hs, numShortestThrough_eq_ncard D hwf v s t hs]

theorem bcPairs_nodup (D : DiGraph) (hnd : D.nodes.Nodup) (v : Nat) :
    (bcPairs D v).Nodup := by
  unfold bcPairs
  refine List.nodup_flatMap.mpr ⟨?_, ?_⟩
  · intro s _
    exact (hnd.filter _).map (fun a b hab => congrArg Prod.snd hab)
  · refine List.Pairwise.imp ?_ (hnd.filter _)
    intro a b hab x hxa hxb
    obtain ⟨ta, _, rfl⟩ := List.mem_map.mp hxa
    obtain ⟨tb, _, heq⟩ := List.mem_map.mp hxb
    exact hab (congrArg Prod.fst heq).symm

theorem bcPairs_toFinset (D : DiGraph) (v : Nat) :
    (bcPairs D v).toFinset = bcPairsFinset D v := by
  ext st
  obtain ⟨s, t⟩ := st
  simp only [List.mem_toFinset, bcPairs, bcPairsFinset, List.mem_flatMap,
    List.mem_filter, List.mem_map, Finset.mem_filter, Finset.mem_product,
    Finset.mem_erase, decide_eq_true_eq, Bool.and_eq_true, Prod.mk.injEq]
  constructor
  · rintro ⟨s', ⟨hs'm, hs'v⟩, t', ⟨ht'm, ht'v, ht's⟩, h1, h2⟩
    subst h1
    subst h2
    exact ⟨⟨⟨hs'v, hs'm⟩, ht'v, ht'm⟩, fun h => ht's h.symm⟩
  · rintro ⟨⟨⟨hsv, hsm⟩, htv, htm⟩, hst⟩
    exact ⟨s, ⟨hsm, hsv⟩, t, ⟨htm, htv, fun h => hst h.symm⟩, rfl, rfl⟩

set_option maxHeartbeats 2000000 in
/-- C2: for every finite directed graph (with distinct node identifiers
and edges between its nodes), the betweenness-centrality computation
assigns to each node the normalized sum, over all ordered pairs of other
nodes, of the fraction of shortest (`length`-weighted) paths between the
pair that pass through the node — with shortest paths described
propositionally and counted set-theoretically. -/
theorem betweenness_is_normalized_fraction (D : DiGraph)
    (hnd : D.nodes.Nodup)
    (hwf : ∀ e ∈ D.edges, e.1 ∈ D.nodes ∧ e.2.1 ∈ D.nodes)
    (v : Nat) (hv : v ∈ D.nodes) :
    dictGet (betweenness_centrality D) v =
      some (bcScale D.nodes.length *
        ∑ st ∈ bcPairsFinset D v,
          (Set.ncard {p | IsShortestPath D st.1 st.2 p ∧ v ∈ p} : ℚ) /
            (Set.ncard {p | IsShortestPath D st.1 st.2 p} : ℚ)) := by
  unfold betweenness_centrality
  rw [dictGet_map_self _ _ v hv]
  have hsum : ((bcPairs D v).map (fun st => pairRatio D v st.1 st.2)).sum =
      ∑ st ∈ bcPairsFinset D v,
        (Set.ncard {p | IsShortestPath D st.1 st.2 p ∧ v ∈ p} : ℚ) /
          (Set.ncard {p | IsShortestPath D st.1 st.2 p} : ℚ) := by
    rw [← bcPairs_toFinset D v, List.sum_toFinset _ (bcPairs_nodup D hnd v)]
    refine congrArg List.sum (List.map_congr_left ?_)
    intro st hst
    have hs : st.1 ∈ D.nodes := by
      unfold bcPairs at hst
      obtain ⟨s, hsmem, hmap⟩ := List.mem_flatMap.mp hst
      obtain ⟨t, _, rfl⟩ := List.mem_map.mp hmap
      exact (List.mem_filter.mp hsmem).1
    exact pairRatio_eq_ncard_div D hwf v st.1 st.2 hs
  rw [hsum]

/-- Witness for C2 on the sample digraph at node `2`. -/
theorem betweenness_is_normalized_fraction_witness :
    dictGet (betweenness_centrality sampleDigraph) 2 =
      some (bcScale sampleDigraph.nodes.length *
        ∑ st ∈ bcPairsFinset sampleDigraph 2,
          (Set.ncard {p | IsShortestPath sampleDigraph st.1 st.2 p ∧ 2 ∈ p} : ℚ) /
            (Set.ncard {p | IsShortestPath sampleDigraph st.1 st.2 p} : ℚ)) :=
  betweenness_is_normalized_fraction sampleDigraph (by decide) (by decide) 2 (by decide)

/-! ## C3: all betweenness scores lie in the unit interval -/

theorem dictGet_map_eq_some {α β : Type} [DecidableEq α]
    (l : List α) (f : α → β) (n : α) (q : β)
    (h : dictGet (l.map (fun v => (v, f v))) n = some q) : n ∈ l ∧ q = f n := by
  induction l with
  | nil => simp [dictGet] at h
  | cons a rest ih =>
    by_cases ha : a = n
    · subst ha
      simp [dictGet] at h
      exact ⟨List.mem_cons_self a rest, h.symm⟩
    · simp [dictGet, ha] at h
      obtain ⟨h1, h2⟩ := ih h
      exact ⟨List.mem_cons_of_mem a h1, h2⟩

theorem length_filter_ne (l : List Nat) (hnd : l.Nodup) (v : Nat) (hv : v ∈ l) :
    (l.filter (fun s => decide (s ≠ v))).length = l.length - 1 := by
  have h3 : (l.filter (fun s => decide (s ≠ v))).toFinset.card
      = (l.filter (fun s => decide (s ≠ v))).length :=
    List.toFinset_card_of_nodup (hnd.filter _)
  rw [← h3, List.toFinset_filter]
  have h2 : l.toFinset.filter (fun a => decide (a ≠ v) = true) = l.toFinset.erase v := by
    rw [← Finset.filter_ne' l.toFinset v]
    exact Finset.filter_congr (fun x _ => by simp)
  rw [h2, Finset.card_erase_of_mem (List.mem_toFinset.mpr hv),
    List.toFinset_card_of_nodup hnd]

theorem length_filter_ne_ne (l : List Nat) (hnd : l.Nodup) (v s : Nat)
    (hv : v ∈ l) (hs : s ∈ l) (hvs : s ≠ v) :
    (l.filter (fun t => decide (t ≠ v) && decide (t ≠ s))).length = l.length - 2 := by
  have h3 : (l.filter (fun t => decide (t ≠ v) && decide (t ≠ s))).toFinset.card
      = (l.filter (fun t => decide (t ≠ v) && decide (t ≠ s))).length :=
    List.toFinset_card_of_nodup (hnd.filter _)
  rw [← h3, List.toFinset_filter]
  have h2 : l.toFinset.filter (fun t => (decide (t ≠ v) && decide (t ≠ s)) = true)
      = (l.toFinset.erase v).erase s := by
    ext t
    simp [Finset.mem_erase, and_comm, and_left_comm, and_assoc]
  rw [h2, Finset.card_erase_of_mem
      (Finset.mem_erase.mpr ⟨hvs, List.mem_toFinset.mpr hs⟩),
    Finset.card_erase_of_mem (List.mem_toFinset.mpr hv),
    List.toFinset_card_of_nodup hnd]
  omega

theorem length_bcPairs (D : DiGraph) (hnd : D.nodes.Nodup) (v : Nat)
    (hv : v ∈ D.nodes) :
    (bcPairs D v).length = (D.nodes.length - 1) * (D.nodes.length - 2) := by
  unfold bcPairs
  rw [List.length_flatMap]
  rw [List.sum_eq_card_nsmul _ (D.nodes.length - 2) ?hall]
  · rw [List.length_map, length_filter_ne D.nodes hnd v hv, smul_eq_mul]
  case hall =>
    intro x hx
    obtain ⟨s, hs, rfl⟩ := List.mem_map.mp hx
    simp only [Function.comp_apply, List.length_map]
    have hmem := List.mem_filter.mp hs
    exact length_filter_ne_ne D.nodes hnd v s hv hmem.1 (by simpa using hmem.2)

theorem numShortestThrough_le_numShortest (D : DiGraph) (v s t : Nat) :
    numShortestThrough D v s t ≤ numShortest D s t := by
  unfold numShortestThrough numShortest
  exact List.length_filter_le _ _

theorem pairRatio_nonneg (D : DiGraph) (v s t : Nat) : 0 ≤ pairRatio D v s t := by
  unfold pairRatio
  exact div_nonneg (Nat.cast_nonneg _) (Nat.cast_nonneg _)

theorem pairRatio_le_one (D : DiGraph) (v s t : Nat) : pairRatio D v s t ≤ 1 := by
  unfold pairRatio
  refine div_le_one_of_le₀ ?_ (Nat.cast_nonneg _)
  exact_mod_cast numShortestThrough_le_numShortest D v s t

set_option maxHeartbeats 2000000 in
/-- C3: every value of the dictionary returned by the betweenness-
centrality call lies in the closed interval `[0, 1]`. -/
theorem betweenness_scores_in_unit_interval (D : DiGraph) (hnd : D.nodes.Nodup)
    (n : Nat) (q : ℚ) (hq : dictGet (betweenness_centrality D) n = some q) :
    0 ≤ q ∧ q ≤ 1 := by
  unfold betweenness_centrality at hq
  obtain ⟨hn, hqe⟩ := dictGet_map_eq_some _ _ _ _ hq
  subst hqe
  have hr0 : ∀ x ∈ (bcPairs D n).map (fun st => pairRatio D n st.1 st.2), 0 ≤ x := by
    intro x hx
    obtain ⟨st, _, rfl⟩ := List.mem_map.mp hx
    exact pairRatio_nonneg D n st.1 st.2
  have hr1 : ∀ x ∈ (bcPairs D n).map (fun st => pairRatio D n st.1 st.2), x ≤ 1 := by
    intro x hx
    obtain ⟨st, _, rfl⟩ := List.mem_map.mp hx
    exact pairRatio_le_one D n st.1 st.2
  have hS0 : 0 ≤ ((bcPairs D n).map (fun st => pairRatio D n st.1 st.2)).sum :=
    List.sum_nonneg hr0
  have hSle : ((bcPairs D n).map (fun st => pairRatio D n st.1 st.2)).sum
      ≤ (((D.nodes.length - 1) * (D.nodes.length - 2) : ℕ) : ℚ) := by
    have := List.sum_le_card_nsmul
      ((bcPairs D n).map (fun st => pairRatio D n st.1 st.2)) 1 hr1
    rw [List.length_map, length_bcPairs D hnd n hn] at this
    simpa [nsmul_eq_mul] using this
  have hscale0 : 0 ≤ bcScale D.nodes.length := by
    unfold bcScale
    split
    · rename_i h2
      have hc : (2 : ℚ) < (D.nodes.length : ℚ) := by exact_mod_cast h2
      have : (0:ℚ) ≤ ((D.nodes.length : ℚ) - 1) * ((D.nodes.length : ℚ) - 2) := by
        nlinarith
      exact inv_nonneg.mpr this
    · norm_num
  refine ⟨mul_nonneg hscale0 hS0, ?_⟩
  unfold bcScale
  split
  · rename_i h2
    have hc : (2 : ℚ) < (D.nodes.length : ℚ) := by exact_mod_cast h2
    have hcast : (((D.nodes.length - 1) * (D.nodes.length - 2) : ℕ) : ℚ)
        = ((D.nodes.length : ℚ) - 1) * ((D.nodes.length : ℚ) - 2) := by
      have e1 : 1 ≤ D.nodes.length := by omega
      have e2 : 2 ≤ D.nodes.length := by omega
      rw [Nat.cast_mul, Nat.cast_sub e1, Nat.cast_sub e2]
      norm_num
    have hpos : 0 < ((D.nodes.length : ℚ) - 1) * ((D.nodes.length : ℚ) - 2) := by
      nlinarith
    calc (((D.nodes.length : ℚ) - 1) * ((D.nodes.length : ℚ) - 2))⁻¹ *
          ((bcPairs D n).map (fun st => pairRatio D n st.1 st.2)).sum
        ≤ (((D.nodes.length : ℚ) - 1) * ((D.nodes.length : ℚ) - 2))⁻¹ *
          (((D.nodes.length - 1) * (D.nodes.length - 2) : ℕ) : ℚ) :=
          mul_le_mul_of_nonneg_left hSle (inv_nonneg.mpr hpos.le)
      _ = 1 := by rw [hcast]; exact inv_mul_cancel₀ hpos.ne'
  · rename_i h2
    have hz : (D.nodes.length - 1) * (D.nodes.length - 2) = 0 := by
      have h22 : D.nodes.length - 2 = 0 := by omega
      rw [h22, Nat.mul_zero]
    rw [hz] at hSle
    have hS0' : ((bcPairs D n).map (fun st => pairRatio D n st.1 st.2)).sum = 0 :=
      le_antisymm (by simpa using hSle) hS0
    rw [hS0', mul_zero]
    norm_num

/-- Witness for C3: the score of node `2` of the sample digraph lies in
`[0, 1]`. -/
theorem betweenness_scores_in_unit_interval_witness :
    0 ≤ bcScale sampleDigraph.nodes.length *
        ((bcPairs sampleDigraph 2).map
          (fun st => pairRatio sampleDigraph 2 st.1 st.2)).sum ∧
      bcScale sampleDigraph.nodes.length *
        ((bcPairs sampleDigraph 2).map
          (fun st => pairRatio sampleDigraph 2 st.1 st.2)).sum ≤ 1 :=
  betweenness_scores_in_unit_interval sampleDigraph (by decide) 2 _ rfl

/-! ## C10: the flattening cell mutates only the deep copy -/

theorem dictGet_some_mem {α β : Type} [DecidableEq α]
    (d : List (α × β)) (k : α) (v : β) (h : dictGet d k = some v) : (k, v) ∈ d := by
  induction d with
  | nil => simp [dictGet] at h
  | cons p rest ih =>
    by_cases hp : p.1 = k
    · obtain ⟨p1, p2⟩ := p
      simp only at hp
      subst hp
      simp [dictGet] at h
      subst h
      exact List.mem_cons_self _ _
    · simp only [dictGet, hp, if_neg, if_false] at h
      exact List.mem_cons_of_mem p (ih h)

theorem storeGet_allocObj (st : Store) (o : HObj) (x : Nat) (ox : HObj)
    (h : storeGet st x = some ox) : storeGet (allocObj st o).2 x = some ox := by
  have hmem : (allocObj st o).2.mem = st.mem ++ [(st.next, o)] := rfl
  unfold storeGet at h ⊢
  rw [hmem]
  exact dictGet_append_left _ _ _ _ h

theorem allocEntries_preserves (t : StatsTree) : ∀ (st : Store) (x : Nat) (ox : HObj),
    storeGet st x = some ox → storeGet (allocEntries st t).1 x = some ox := by
  induction t with
  | nil =>
    intro st x ox h
    simpa [allocEntries] using h
  | cons kv rest ih =>
    intro st x ox h
    obtain ⟨k, v⟩ := kv
    cases v with
    | num q =>
      simp only [allocEntries]
      exact ih st x ox h
    | table tb =>
      simp only [allocEntries]
      exact ih _ x ox (storeGet_allocObj st (.table tb) x ox h)

theorem allocObj_next (st : Store) (o : HObj) : (allocObj st o).2.next = st.next + 1 := rfl

theorem allocEntries_next_le (t : StatsTree) :
    ∀ st : Store, st.next ≤ (allocEntries st t).1.next := by
  induction t with
  | nil =>
    intro st
    simp [allocEntries]
  | cons kv rest ih =>
    intro st
    obtain ⟨k, v⟩ := kv
    cases v with
    | num q =>
      simp only [allocEntries]
      exact ih st
    | table tb =>
      simp only [allocEntries]
      calc st.next ≤ (allocObj st (.table tb)).2.next := by
            rw [allocObj_next]
            omega
        _ ≤ _ := ih _

theorem storeGet_setTopNum_ne (st : Store) (a : Nat) (k : String) (q : ℚ)
    (x : Nat) (hx : x ≠ a) : storeGet (setTopNum st a k q) x = storeGet st x := by
  unfold setTopNum
  split
  · rename_i es heq
    unfold storeSet storeGet
    exact dictGet_dictSet_ne _ _ _ _ hx
  · rfl

theorem storeGet_foldl_setTopNum_ne (l : List (Nat × ℚ)) (f : Nat × ℚ → String)
    (a : Nat) : ∀ (st : Store) (x : Nat), x ≠ a →
    storeGet (l.foldl (fun st kc => setTopNum st a (f kc) kc.2) st) x
      = storeGet st x := by
  induction l with
  | nil =>
    intro st x _
    rfl
  | cons kc rest ih =>
    intro st x hx
    rw [List.foldl_cons, ih _ x hx, storeGet_setTopNum_ne _ _ _ _ x hx]

theorem storeGet_delTop_ne (st st' : Store) (a : Nat) (k : String)
    (h : delTop st a k = some st') (x : Nat) (hx : x ≠ a) :
    storeGet st' x = storeGet st x := by
  unfold delTop at h
  split at h
  · rename_i es heq
    split at h
    · obtain rfl := Option.some.inj h
      unfold storeSet storeGet
      exact dictGet_dictSet_ne _ _ _ _ hx
    · exact absurd h (by simp)
  · exact absurd h (by simp)

theorem loadEntries_mono (st st' : Store)
    (H : ∀ x ox, storeGet st x = some ox → storeGet st' x = some ox) :
    ∀ (es : List (String × HVal)) (t : StatsTree),
      loadEntries st es = some t → loadEntries st' es = some t := by
  intro es
  induction es with
  | nil =>
    intro t h
    simpa [loadEntries] using h
  | cons e rest ih =>
    intro t h
    obtain ⟨k, v⟩ := e
    cases v with
    | num q =>
      simp only [loadEntries] at h ⊢
      cases hr : loadEntries st rest with
      | none => rw [hr] at h; simp at h
      | some r =>
        rw [hr] at h
        rw [ih r hr]
        exact h
    | ref b =>
      simp only [loadEntries] at h ⊢
      cases hb : storeGet st b with
      | none => rw [hb] at h; simp at h
      | some ob =>
        cases ob with
        | dict es2 => rw [hb] at h; simp at h
        | table tb =>
          rw [hb] at h
          rw [H b _ hb]
          cases hr : loadEntries st rest with
          | none => rw [hr] at h; simp at h
          | some r =>
            rw [hr] at h
            rw [ih r hr]
            exact h

theorem loadStats_mono (st st' : Store)
    (H : ∀ x ox, storeGet st x = some ox → storeGet st' x = some ox)
    (a : Nat) (t : StatsTree) (h : loadStats st a = some t) :
    loadStats st' a = some t := by
  unfold loadStats at h ⊢
  cases ha : storeGet st a with
  | none => rw [ha] at h; simp at h
  | some oa =>
    cases oa with
    | table tb => rw [ha] at h; simp at h
    | dict es =>
      rw [ha] at h
      rw [H a _ ha]
      exact loadEntries_mono st st' H es t h

set_option maxHeartbeats 1000000 in
/-- C10: the statistics-flattening cell operates on a deep copy: after
`stats_unpack = deepcopy(stats)`, the key-copying loops and the two `del`
statements (all mutating the copy's address), the original statistics
dictionary still reads back exactly as before — all of its keys and
values, including both nested dictionaries. -/
theorem stats_flattening_preserves_original (store : Store) (a : Nat)
    (t : StatsTree) (st' : Store) (ua : Nat)
    (hwf : ∀ p ∈ store.mem, p.1 < store.next)
    (hload : loadStats store a = some t)
    (hrun : unpackCell store a = some (st', ua)) :
    loadStats st' a = some t := by
  unfold unpackCell at hrun
  unfold deepcopy at hrun
  rw [hload] at hrun
  simp only [Option.map_some', Option.some_bind] at hrun
  cases hc : getTable (allocObj (allocEntries store t).1
      (.dict (allocEntries store t).2)).2
      (allocObj (allocEntries store t).1 (.dict (allocEntries store t).2)).1
      "streets_per_node_counts" with
  | none => rw [hc] at hrun; simp at hrun
  | some counts =>
  rw [hc] at hrun
  simp only [Option.some_bind] at hrun
  cases hp : getTable (counts.foldl (fun st kc => setTopNum st
      (allocObj (allocEntries store t).1 (.dict (allocEntries store t).2)).1
      (toString kc.1 ++ "way_int_count") kc.2)
      (allocObj (allocEntries store t).1 (.dict (allocEntries store t).2)).2)
      (allocObj (allocEntries store t).1 (.dict (allocEntries store t).2)).1
      "streets_per_node_proportions" with
  | none => rw [hp] at hrun; simp at hrun
  | some props =>
  rw [hp] at hrun
  simp only [Option.some_bind] at hrun
  cases hd1 : delTop (props.foldl (fun st kp => setTopNum st
      (allocObj (allocEntries store t).1 (.dict (allocEntries store t).2)).1
      (toString kp.1 ++ "way_int_prop") kp.2)
      (counts.foldl (fun st kc => setTopNum st
        (allocObj (allocEntries store t).1 (.dict (allocEntries store t).2)).1
        (toString kc.1 ++ "way_int_count") kc.2)
        (allocObj (allocEntries store t).1 (.dict (allocEntries store t).2)).2))
      (allocObj (allocEntries store t).1 (.dict (allocEntries store t).2)).1
      "streets_per_node_counts" with
  | none => rw [hd1] at hrun; simp at hrun
  | some st4 =>
  rw [hd1] at hrun
  simp only [Option.some_bind] at hrun
  cases hd2 : delTop st4
      (allocObj (allocEntries store t).1 (.dict (allocEntries store t).2)).1
      "streets_per_node_proportions" with
  | none => rw [hd2] at hrun; simp at hrun
  | some st5 =>
  rw [hd2] at hrun
  simp only [Option.map_some'] at hrun
  have h12 := Option.some.inj hrun
  have h1 : st5 = st' := congrArg Prod.fst h12
  -- the copy's address is fresh: at least the original store's next address
  have hua : store.next ≤ (allocObj (allocEntries store t).1
      (.dict (allocEntries store t).2)).1 := allocEntries_next_le t store
  -- every address readable in the original store is below `next`,
  -- hence distinct from the copy's address and untouched by the mutations
  have H : ∀ x ox, storeGet store x = some ox → storeGet st5 x = some ox := by
    intro x ox hx
    have hxlt : x < store.next := hwf (x, ox) (dictGet_some_mem _ _ _ hx)
    have hxne : x ≠ (allocObj (allocEntries store t).1
        (.dict (allocEntries store t).2)).1 := by omega
    have s1 : storeGet (allocEntries store t).1 x = some ox :=
      allocEntries_preserves t store x ox hx
    have s2 : storeGet (allocObj (allocEntries store t).1
        (.dict (allocEntries store t).2)).2 x = some ox :=
      storeGet_allocObj _ _ x ox s1
    have s3 := storeGet_foldl_setTopNum_ne counts
      (fun kc => toString kc.1 ++ "way_int_count")
      (allocObj (allocEntries store t).1 (HObj.dict (allocEntries store t).2)).1
      (allocObj (allocEntries store t).1 (HObj.dict (allocEntries store t).2)).2
      x hxne
    have s4 := storeGet_foldl_setTopNum_ne props
      (fun kp => toString kp.1 ++ "way_int_prop")
      (allocObj (allocEntries store t).1 (HObj.dict (allocEntries store t).2)).1
      (List.foldl (fun st kc => setTopNum st
          (allocObj (allocEntries store t).1 (HObj.dict (allocEntries store t).2)).1
          (toString kc.1 ++ "way_int_count") kc.2)
        (allocObj (allocEntries store t).1 (HObj.dict (allocEntries store t).2)).2 counts)
      x hxne
    have s5 := storeGet_delTop_ne _ _ _ _ hd1 x hxne
    have s6 := storeGet_delTop_ne _ _ _ _ hd2 x hxne
    rw [s6, s5, s4, s3]
    exact s2
  rw [← h1]
  exact loadStats_mono store st5 H a t hload

/-- Witness for C10: on the concrete store, after the cell runs, the
original dictionary still reads back with its scalar and both nested
tables intact. -/
theorem stats_flattening_preserves_original_witness :
    loadStats wStoreFinal 0 = some [("n", .num 5),
      ("streets_per_node_counts", .table [(3, 4)]),
      ("streets_per_node_proportions", .table [(3, 1)])] :=
  stats_flattening_preserves_original wStore 0
    [("n", .num 5),
     ("streets_per_node_counts", .table [(3, 4)]),
     ("streets_per_node_proportions", .table [(3, 1)])]
    wStoreFinal 5 (by decide) rfl rfl

/-! ## C4: errors propagate uncaught and halt the notebook -/

theorem runCells_append {E : Type} (l₁ l₂ : List (NBState → Except E NBState))
    (s : NBState) :
    runCells (l₁ ++ l₂) s =
      match runCells l₁ s with
      | .error e => .error e
      | .ok s' => runCells l₂ s' := by
  induction l₁ generalizing s with
  | nil => simp [runCells]
  | cons c cs ih =>
    simp only [List.cons_append, runCells]
    cases c s <;> simp [ih]

/-- C4: the notebook implements no error handling: whenever the cells
before some cell succeed and that cell's external call fails, the failure
is the result of the whole run — execution halts at that cell and the
remaining cells (arbitrary here) never run. -/
theorem notebook_propagates_errors {E : Type} (ext : ExtEnv E)
    (cs₁ cs₂ : List (NBState → Except E NBState)) (c : NBState → Except E NBState)
    (s s' : NBState) (e : E)
    (hsplit : notebookCells ext = cs₁ ++ c :: cs₂)
    (hpre : runCells cs₁ s = .ok s')
    (herr : c s' = .error e) :
    runCells (notebookCells ext) s = .error e := by
  rw [hsplit, runCells_append, hpre]
  simp [runCells, herr]

/-- Witness for C4: with a timed-out extraction call, the whole notebook
run surfaces exactly that error. -/
theorem notebook_propagates_errors_witness :
    runCells (notebookCells failEnv) initState = .error "network timeout" :=
  notebook_propagates_errors failEnv [] ((notebookCells failEnv).tail)
    ((notebookCells failEnv).headD (fun s => .ok s)) initState initState
    "network timeout" rfl rfl rfl

end OsmnxBasics
